import Mathlib

/-!
Shallow embedding of `code_base/rnn_layers.py`: a vanilla RNN layer
(per-timestep cell and whole-sequence runner), a masked temporal average
pooling layer, and a temporal affine layer, together with their backward
(gradient) passes.

Modelling conventions:

* Dense 2-D arrays of shape (n, m) become `Mat n m := Matrix (Fin n) (Fin m) ℚ`;
  scalars are exact rationals (the numeric library is assumed to provide
  standard field arithmetic; IEEE rounding is out of scope).
* `np.tanh` is a primitive of the external numeric library, so it is carried
  as an abstract elementwise function `tanh : ℚ → ℚ`.
* A 3-D array of shape (N, T, H) whose time axis is iterated by the code is
  represented time-major, as a `List (Mat N H)` of its T slices `a[:,t,:]`;
  `np.transpose(·, [1,0,2])` is the layout change between the time-major
  stack and the (N, T, H) array, content-identical for T ≥ 1, and it raises
  `ValueError` on the empty stack (a 1-D array of shape (0,) cannot be
  transposed with three axes) — modelled by an `Option` failure.
* 3-D arrays that are only indexed pointwise (in the average and temporal
  affine layers) are represented as functions `Fin N → Fin T → Fin H → ℚ`;
  `reshape(N*T, D)` becomes row indexing by the product type `Fin N × Fin T`.
* Python list indexing `cache[t]` is fallible (`IndexError`), modelled with
  `List.getElem?` inside the `Option` monad.
* A float division whose denominator is zero is a divide-by-zero error
  condition surfaced by the numeric environment rather than a finite result;
  code paths that perform such a division are modelled as `Option` failures
  guarded on the denominators being nonzero.
-/

/-- A dense (n, m) array with exact rational entries. -/
abbrev Mat (n m : ℕ) : Type := Matrix (Fin n) (Fin m) ℚ

/-- A 3-D (n, t, h) array accessed only pointwise. -/
abbrev Ten3 (n t h : ℕ) : Type := Fin n → Fin t → Fin h → ℚ

/-- The per-step cache dictionary built by `rnn_step_forward`
(keys `x`, `prev_h`, `next_h`, `Wh`, `Wx`). -/
structure StepCache (N D H : ℕ) where
  x : Mat N D
  prev_h : Mat N H
  next_h : Mat N H
  Wh : Mat H H
  Wx : Mat D H
deriving DecidableEq

/-- The tuple `(dx, dprev_h, dWx, dWh, db)` returned by `rnn_step_backward`. -/
abbrev StepGrads (N D H : ℕ) : Type :=
  Mat N D × Mat N H × Mat D H × Mat H H × (Fin H → ℚ)

section Layers

variable {N D H M : ℕ} (tanh : ℚ → ℚ)

/-- `rnn_step_forward(x, prev_h, Wx, Wh, b)`:
`next_h = np.tanh(np.dot(x,Wx) + np.dot(prev_h,Wh) + b)` (b broadcast over
the batch axis), cache holding `x`, `prev_h`, `next_h`, `Wh`, `Wx`. -/
def rnn_step_forward (x : Mat N D) (prev_h : Mat N H) (Wx : Mat D H)
    (Wh : Mat H H) (b : Fin H → ℚ) : Mat N H × StepCache N D H :=
  let next_h : Mat N H := (x * Wx + prev_h * Wh + Matrix.of fun _ k => b k).map tanh
  (next_h, ⟨x, prev_h, next_h, Wh, Wx⟩)

/-- `rnn_step_backward(dnext_h, cache)`:
`de_dz = dnext_h * (1 - next_h**2)` (elementwise), then
`dWh = prev_h.T · de_dz`, `dWx = x.T · de_dz`, `dx = de_dz · Wx.T`,
`dprev_h = de_dz · Wh.T`, `db = np.sum(de_dz, axis=0)`. -/
def rnn_step_backward (dnext_h : Mat N H) (cache : StepCache N D H) :
    StepGrads N D H :=
  let de_dz : Mat N H := Matrix.of fun n k => dnext_h n k * (1 - (cache.next_h n k) ^ 2)
  let dWh : Mat H H := cache.prev_h.transpose * de_dz
  let dWx : Mat D H := cache.x.transpose * de_dz
  let dx : Mat N D := de_dz * cache.Wx.transpose
  let dprev_h : Mat N H := de_dz * cache.Wh.transpose
  let db : Fin H → ℚ := fun k => ∑ n, de_dz n k
  (dx, dprev_h, dWx, dWh, db)

/-- The timestep loop of `rnn_forward`: for each time slice `x[:,t,:]` in
order, run `rnn_step_forward`, thread `prev_h = cache_current['next_h']`,
and collect the hidden states and caches in timestep order. -/
def rnn_forward_loop (Wx : Mat D H) (Wh : Mat H H) (b : Fin H → ℚ) :
    List (Mat N D) → Mat N H → List (Mat N H) × List (StepCache N D H)
  | [], _ => ([], [])
  | xt :: rest, prev_h =>
    let step := rnn_step_forward tanh xt prev_h Wx Wh b
    let tail := rnn_forward_loop Wx Wh b rest step.2.next_h
    (step.1 :: tail.1, step.2 :: tail.2)

/-- `rnn_forward(x, h0, Wx, Wh, b)`: run the loop over all T timesteps, then
`np.transpose(h, [1,0,2])` reshapes the time-major stack into the (N, T, H)
array — which raises `ValueError` when the stack is empty (T = 0), since the
empty list is not a 3-D array. The returned hidden sequence stays in
time-major form (entry t is the slice `h[:,t,:]`). -/
def rnn_forward (x : List (Mat N D)) (h0 : Mat N H) (Wx : Mat D H)
    (Wh : Mat H H) (b : Fin H → ℚ) :
    Option (List (Mat N H) × List (StepCache N D H)) :=
  match (rnn_forward_loop tanh Wx Wh b x h0).1 with
  | [] => none
  | _ :: _ => some (rnn_forward_loop tanh Wx Wh b x h0)

/-- The accumulated state of the `rnn_backward` loop:
`(dx list in processing order, dh0, dWx, dWh, db)`. -/
abbrev BackState (N D H : ℕ) : Type :=
  List (Mat N D) × Mat N H × Mat D H × Mat H H × (Fin H → ℚ)

/-- The non-initial iterations of the `rnn_backward` loop:
`rnn_backward_loop dh cache k s` runs the loop body for timesteps
`k-1, k-2, …, 0` starting from state `s`. Each iteration reads
`cache[timestep]` (an `IndexError` — `none` — when out of range), feeds
`dh[:,timestep,:] + dh0` to `rnn_step_backward`, appends `dx_current`, and
adds the weight and bias gradients into the accumulators. -/
def rnn_backward_loop (dh : List (Mat N H)) (cache : List (StepCache N D H)) :
    ℕ → BackState N D H → Option (BackState N D H)
  | 0, s => some s
  | t + 1, s => do
    let c ← cache[t]?
    let g := rnn_step_backward (dh.getD t 0 + s.2.1) c
    rnn_backward_loop dh cache t
      (s.1 ++ [g.1], g.2.1, s.2.2.1 + g.2.2.1, s.2.2.2.1 + g.2.2.2.1,
        fun k => s.2.2.2.2 k + g.2.2.2.2 k)

/-- `rnn_backward(dh, cache)`: with T = `dh.shape[1]`, iterate timesteps
T-1 down to 0. The first iteration (timestep T-1) feeds `dh[:,T-1,:]` alone
to `rnn_step_backward` and initialises `dh0, dWx, dWh, db`; the remaining
iterations are `rnn_backward_loop`. Finally `dx.reverse()` puts `dx` back in
original time order (`np.transpose(dx, [1,0,2])` is then the time-major to
(N, T, D) layout change). For T = 0 the loop body never runs: the final
transpose of the empty `dx` raises `ValueError` (and `dh0, dWx, dWh, db`
were never assigned), modelled as `none`. -/
def rnn_backward_go (dh : List (Mat N H)) (cache : List (StepCache N D H)) :
    ℕ → Option (BackState N D H)
  | 0 => none
  | t + 1 => do
    let c ← cache[t]?
    let g := rnn_step_backward (dh.getD t 0) c
    let s ← rnn_backward_loop dh cache t
      ([g.1], g.2.1, g.2.2.1, g.2.2.2.1, g.2.2.2.2)
    some (s.1.reverse, s.2)

/-- `rnn_backward(dh, cache)` proper: the timestep count T handed to the
loop is `dh.shape[1]`, the number of time slices of `dh`. -/
def rnn_backward (dh : List (Mat N H)) (cache : List (StepCache N D H)) :
    Option (BackState N D H) :=
  rnn_backward_go dh cache dh.length

/-- The cache dictionary built by `average_forward` (keys `mask`, `count`). -/
structure AvgCache (N T : ℕ) where
  mask : Fin N → Fin T → ℚ
  count : Fin N → ℚ
deriving DecidableEq

/-- `average_forward(hi, mask)`: `count = np.sum(mask, axis=1)`, and row `i`
of the output is `np.dot(mask[i], hi[i]) / count[i]`. Each row's division is
performed unconditionally; a row with `count[i] == 0` makes it a
divide-by-zero error condition of the numeric environment, modelled as
`none`. -/
def average_forward (hi : Ten3 N T H) (mask : Fin N → Fin T → ℚ) :
    Option ((Fin N → Fin H → ℚ) × AvgCache N T) :=
  let count : Fin N → ℚ := fun i => ∑ t, mask i t
  if ∀ i, count i ≠ 0 then
    some (fun i k => (∑ t, mask i t * hi i t k) / count i, ⟨mask, count⟩)
  else none

/-- `average_backward(dho, cache)`: entry `(i, j)` of the output is
`dho[i] * cache['mask'][i,j] / cache['count'][i]`. The division at `(i, j)`
is a divide-by-zero error condition when `count[i] == 0` (no division is
performed when T = 0, since the inner loop body never runs). -/
def average_backward (dho : Fin N → Fin H → ℚ) (cache : AvgCache N T) :
    Option (Ten3 N T H) :=
  if ∀ (i : Fin N), ∀ (_ : Fin T), cache.count i ≠ 0 then
    some (fun i j k => dho i k * cache.mask i j / cache.count i)
  else none

/-- `x.reshape(N * T, D)`: the row-major flattening of the batch and time
axes, with the row of sample `i`, timestep `t` indexed by the pair `(i, t)`. -/
def reshapeNT (x : Ten3 N T D) : Matrix (Fin N × Fin T) (Fin D) ℚ :=
  Matrix.of fun p d => x p.1 p.2 d

/-- `y.reshape(N, T, M)`: undo `reshapeNT`. -/
def unflattenNT (y : Matrix (Fin N × Fin T) (Fin M) ℚ) : Ten3 N T M :=
  fun i t m => y (i, t) m

/-- `temporal_affine_forward(x, w, b)`:
`out = x.reshape(N*T, D).dot(w).reshape(N, T, M) + b` (b broadcast over the
last axis); cache is the tuple `(x, w, b, out)`. -/
def temporal_affine_forward (x : Ten3 N T D) (w : Mat D M) (b : Fin M → ℚ) :
    Ten3 N T M × (Ten3 N T D × Mat D M × (Fin M → ℚ) × Ten3 N T M) :=
  let out : Ten3 N T M := fun i t m => unflattenNT (reshapeNT x * w) i t m + b m
  (out, (x, w, b, out))

/-- `temporal_affine_backward(dout, cache)`:
`dx = dout.reshape(N*T, M).dot(w.T).reshape(N, T, D)`,
`dw = dout.reshape(N*T, M).T.dot(x.reshape(N*T, D)).T`,
`db = dout.sum(axis=(0, 1))`. -/
def temporal_affine_backward (dout : Ten3 N T M)
    (cache : Ten3 N T D × Mat D M × (Fin M → ℚ) × Ten3 N T M) :
    Ten3 N T D × Mat D M × (Fin M → ℚ) :=
  let x := cache.1
  let w := cache.2.1
  let dx : Ten3 N T D := unflattenNT (reshapeNT dout * w.transpose)
  let dw : Mat D M := ((reshapeNT dout).transpose * reshapeNT x).transpose
  let db : Fin M → ℚ := fun m => ∑ p : Fin N × Fin T, reshapeNT dout p m
  (dx, dw, db)

/-- Reference description of the BPTT recurrence on upstream gradients,
indexed from the last timestep: with T = `dh.length`,
`bpttIncomingRev dh cache j` is the gradient fed into the backward call of
timestep `T-1-j`. At the last timestep (`j = 0`) it is `dh[:,T-1,:]` alone;
one step earlier in time it is that timestep's `dh` slice plus the `dprev_h`
emitted by the next timestep's `rnn_step_backward`. -/
def bpttIncomingRev (dh : List (Mat N H)) (cache : List (StepCache N D H)) :
    ℕ → Mat N H
  | 0 => dh.getD (dh.length - 1) 0
  | j + 1 =>
    dh.getD (dh.length - 1 - (j + 1)) 0 +
      (rnn_step_backward (bpttIncomingRev dh cache j)
        (cache.getD (dh.length - 1 - j) ⟨0, 0, 0, 0, 0⟩)).2.1

/-- The gradient fed into the backward call of timestep `t` under the BPTT
recurrence: `dh[:,t,:]` alone at the last timestep, otherwise `dh[:,t,:]`
plus the `dprev_h` produced by the step `t+1` backward. -/
def bpttIncoming (dh : List (Mat N H)) (cache : List (StepCache N D H))
    (t : ℕ) : Mat N H :=
  bpttIncomingRev dh cache (dh.length - 1 - t)

/-- The five per-step gradients of the step-`t` backward call inside
`rnn_backward`, per the BPTT recurrence `bpttIncoming`. -/
def bpttStepGrads (dh : List (Mat N H)) (cache : List (StepCache N D H))
    (t : ℕ) : StepGrads N D H :=
  rnn_step_backward (bpttIncoming dh cache t) (cache.getD t ⟨0, 0, 0, 0, 0⟩)

/-- Reference description of the hidden state entering timestep `t` of
`rnn_forward`: `h0` before timestep 0, and afterwards always the hidden
state produced by the previous timestep's `rnn_step_forward`. -/
def hiddenBefore (Wx : Mat D H) (Wh : Mat H H) (b : Fin H → ℚ)
    (x : List (Mat N D)) (h0 : Mat N H) : ℕ → Mat N H
  | 0 => h0
  | t + 1 =>
    (rnn_step_forward tanh (x.getD t 0) (hiddenBefore Wx Wh b x h0 t) Wx Wh b).1

end Layers

theorem rnn_forward_loop_length (tanh : ℚ → ℚ) {N D H : ℕ} (Wx : Mat D H)
    (Wh : Mat H H) (b : Fin H → ℚ) (x : List (Mat N D)) (prev : Mat N H) :
    (rnn_forward_loop tanh Wx Wh b x prev).1.length = x.length ∧
    (rnn_forward_loop tanh Wx Wh b x prev).2.length = x.length := by
  induction x generalizing prev with
  | nil => simp [rnn_forward_loop]
  | cons xt rest ih => simp [rnn_forward_loop, ih]

theorem hiddenBefore_cons (tanh : ℚ → ℚ) {N D H : ℕ} (Wx : Mat D H)
    (Wh : Mat H H) (b : Fin H → ℚ) (xt : Mat N D) (rest : List (Mat N D))
    (prev : Mat N H) (t : ℕ) :
    hiddenBefore tanh Wx Wh b (xt :: rest) prev (t + 1) =
      hiddenBefore tanh Wx Wh b rest
        (rnn_step_forward tanh xt prev Wx Wh b).1 t := by
  induction t with
  | zero => rfl
  | succ t ih =>
    show (rnn_step_forward tanh ((xt :: rest).getD (t + 1) 0)
        (hiddenBefore tanh Wx Wh b (xt :: rest) prev (t + 1)) Wx Wh b).1 = _
    rw [ih, List.getD_cons_succ]
    rfl

theorem rnn_forward_loop_get (tanh : ℚ → ℚ) {N D H : ℕ} (Wx : Mat D H)
    (Wh : Mat H H) (b : Fin H → ℚ) (x : List (Mat N D)) (prev : Mat N H) :
    ∀ t, t < x.length →
      (rnn_forward_loop tanh Wx Wh b x prev).1[t]? =
        some ((rnn_step_forward tanh (x.getD t 0)
          (hiddenBefore tanh Wx Wh b x prev t) Wx Wh b).1) ∧
      (rnn_forward_loop tanh Wx Wh b x prev).2[t]? =
        some ((rnn_step_forward tanh (x.getD t 0)
          (hiddenBefore tanh Wx Wh b x prev t) Wx Wh b).2) := by
  induction x generalizing prev with
  | nil => intro t ht; simp at ht
  | cons xt rest ih =>
    intro t ht
    match t with
    | 0 =>
      constructor <;>
        simp [rnn_forward_loop, hiddenBefore, List.getElem?_cons_zero]
    | t + 1 =>
      have ht' : t < rest.length := by simpa using ht
      have := ih (rnn_step_forward tanh xt prev Wx Wh b).1 t ht'
      simp only [rnn_forward_loop, List.getElem?_cons_succ, List.getD_cons_succ,
        hiddenBefore_cons]
      exact this

/-- C4: for T ≥ 1, `rnn_forward` returns `some`; the hidden sequence and the
cache list both have T entries, entry t of the hidden sequence is the
timestep-t output of `rnn_step_forward` fed with the previous step's output
hidden state (`h0` at timestep 0, per `hiddenBefore`), and entry t of the
cache list is that step's cache. -/
theorem rnn_forward_spec (tanh : ℚ → ℚ) {N D H : ℕ} (x : List (Mat N D))
    (h0 : Mat N H) (Wx : Mat D H) (Wh : Mat H H) (b : Fin H → ℚ)
    (hx : x ≠ []) :
    ∃ hs cs, rnn_forward tanh x h0 Wx Wh b = some (hs, cs) ∧
      hs.length = x.length ∧ cs.length = x.length ∧
      ∀ t, t < x.length →
        hs[t]? = some ((rnn_step_forward tanh (x.getD t 0)
          (hiddenBefore tanh Wx Wh b x h0 t) Wx Wh b).1) ∧
        cs[t]? = some ((rnn_step_forward tanh (x.getD t 0)
          (hiddenBefore tanh Wx Wh b x h0 t) Wx Wh b).2) := by
  refine ⟨(rnn_forward_loop tanh Wx Wh b x h0).1,
    (rnn_forward_loop tanh Wx Wh b x h0).2, ?_,
    (rnn_forward_loop_length tanh Wx Wh b x h0).1,
    (rnn_forward_loop_length tanh Wx Wh b x h0).2,
    rnn_forward_loop_get tanh Wx Wh b x h0⟩
  unfold rnn_forward
  split
  · rename_i heq
    exfalso
    apply hx
    have := (rnn_forward_loop_length tanh Wx Wh b x h0).1
    rw [heq] at this
    exact List.length_eq_zero.mp this.symm
  · rfl

/-- Witness for C4: a single-timestep run at N = D = H = 1. -/
theorem rnn_forward_spec_witness :
    ([Matrix.of fun (_ : Fin 1) (_ : Fin 1) => (2 : ℚ)] ≠ ([] : List (Mat 1 1))) ∧
    (∃ hs cs, rnn_forward (fun q => q) [Matrix.of fun (_ : Fin 1) (_ : Fin 1) => (2 : ℚ)]
        (0 : Mat 1 1) (1 : Mat 1 1) (1 : Mat 1 1) (fun _ => (0 : ℚ)) = some (hs, cs) ∧
      hs.length = [Matrix.of fun (_ : Fin 1) (_ : Fin 1) => (2 : ℚ)].length ∧
      cs.length = [Matrix.of fun (_ : Fin 1) (_ : Fin 1) => (2 : ℚ)].length ∧
      ∀ t, t < [Matrix.of fun (_ : Fin 1) (_ : Fin 1) => (2 : ℚ)].length →
        hs[t]? = some ((rnn_step_forward (fun q => q)
          ([Matrix.of fun (_ : Fin 1) (_ : Fin 1) => (2 : ℚ)].getD t 0)
          (hiddenBefore (fun q => q) (1 : Mat 1 1) (1 : Mat 1 1) (fun _ => (0 : ℚ))
            [Matrix.of fun (_ : Fin 1) (_ : Fin 1) => (2 : ℚ)] (0 : Mat 1 1) t)
          (1 : Mat 1 1) (1 : Mat 1 1) (fun _ => (0 : ℚ))).1) ∧
        cs[t]? = some ((rnn_step_forward (fun q => q)
          ([Matrix.of fun (_ : Fin 1) (_ : Fin 1) => (2 : ℚ)].getD t 0)
          (hiddenBefore (fun q => q) (1 : Mat 1 1) (1 : Mat 1 1) (fun _ => (0 : ℚ))
            [Matrix.of fun (_ : Fin 1) (_ : Fin 1) => (2 : ℚ)] (0 : Mat 1 1) t)
          (1 : Mat 1 1) (1 : Mat 1 1) (fun _ => (0 : ℚ))).2)) :=
  ⟨List.cons_ne_nil _ _,
    rnn_forward_spec (fun q => q) [Matrix.of fun _ _ => (2 : ℚ)] 0 1 1 (fun _ => 0)
      (List.cons_ne_nil _ _)⟩

theorem bpttIncoming_last {N D H : ℕ} (dh : List (Mat N H))
    (cache : List (StepCache N D H)) (t : ℕ) (h : t + 1 = dh.length) :
    bpttIncoming dh cache t = dh.getD t 0 := by
  unfold bpttIncoming
  have h0 : dh.length - 1 - t = 0 := by omega
  rw [h0]
  unfold bpttIncomingRev
  have h1 : dh.length - 1 = t := by omega
  rw [h1]

theorem bpttIncoming_mid {N D H : ℕ} (dh : List (Mat N H))
    (cache : List (StepCache N D H)) (t : ℕ) (h : t + 1 < dh.length) :
    bpttIncoming dh cache t = dh.getD t 0 +
      (rnn_step_backward (bpttIncoming dh cache (t + 1))
        (cache.getD (t + 1) ⟨0, 0, 0, 0, 0⟩)).2.1 := by
  unfold bpttIncoming
  have h1 : dh.length - 1 - t = (dh.length - 1 - (t + 1)) + 1 := by omega
  rw [h1]
  simp only [bpttIncomingRev]
  have h2 : dh.length - 1 - (dh.length - 1 - (t + 1) + 1) = t := by omega
  have h3 : dh.length - 1 - (dh.length - 1 - (t + 1)) = t + 1 := by omega
  rw [h2, h3]

theorem rnn_backward_loop_succ {N D H : ℕ} (dh : List (Mat N H))
    (cache : List (StepCache N D H)) (k : ℕ) (hck : k < cache.length)
    (s : BackState N D H) :
    rnn_backward_loop dh cache (k + 1) s =
      rnn_backward_loop dh cache k
        (s.1 ++ [(rnn_step_backward (dh.getD k 0 + s.2.1) cache[k]).1],
          (rnn_step_backward (dh.getD k 0 + s.2.1) cache[k]).2.1,
          s.2.2.1 + (rnn_step_backward (dh.getD k 0 + s.2.1) cache[k]).2.2.1,
          s.2.2.2.1 + (rnn_step_backward (dh.getD k 0 + s.2.1) cache[k]).2.2.2.1,
          fun r => s.2.2.2.2 r + (rnn_step_backward (dh.getD k 0 + s.2.1) cache[k]).2.2.2.2 r) := by
  conv_lhs => rw [rnn_backward_loop]
  rw [List.getElem?_eq_getElem hck]
  simp only [Option.bind_eq_bind, Option.some_bind]

theorem rnn_backward_loop_spec {N D H : ℕ} (dh : List (Mat N H))
    (cache : List (StepCache N D H)) (hc : cache.length = dh.length) :
    ∀ k, k < dh.length →
      ∀ (dxs : List (Mat N D)) (A : Mat D H) (B : Mat H H) (Cv : Fin H → ℚ),
      rnn_backward_loop dh cache k
          (dxs, (bpttStepGrads dh cache k).2.1, A, B, Cv) =
        some (dxs ++ ((List.range k).reverse.map fun t => (bpttStepGrads dh cache t).1),
          (bpttStepGrads dh cache 0).2.1,
          A + ∑ t ∈ Finset.range k, (bpttStepGrads dh cache t).2.2.1,
          B + ∑ t ∈ Finset.range k, (bpttStepGrads dh cache t).2.2.2.1,
          fun r => Cv r + ∑ t ∈ Finset.range k, (bpttStepGrads dh cache t).2.2.2.2 r) := by
  intro k
  induction k with
  | zero =>
    intro _ dxs A B Cv
    simp [rnn_backward_loop]
  | succ k ih =>
    intro hk dxs A B Cv
    have hck : k < cache.length := by omega
    have hstep : rnn_step_backward
        (dh.getD k 0 + (bpttStepGrads dh cache (k + 1)).2.1) cache[k] =
        bpttStepGrads dh cache k := by
      unfold bpttStepGrads
      rw [← bpttIncoming_mid dh cache k (by omega),
        List.getD_eq_getElem cache _ hck]
    rw [rnn_backward_loop_succ dh cache k hck]
    dsimp only
    rw [hstep, ih (by omega)]
    refine congrArg some (Prod.ext ?_ (Prod.ext rfl (Prod.ext ?_ (Prod.ext ?_ ?_))))
    · dsimp only
      rw [List.range_succ]
      simp [List.append_assoc]
    · dsimp only
      rw [Finset.sum_range_succ]
      abel
    · dsimp only
      rw [Finset.sum_range_succ]
      abel
    · dsimp only
      funext r
      rw [Finset.sum_range_succ]
      ring

theorem rnn_backward_char {N D H : ℕ} (dh : List (Mat N H))
    (cache : List (StepCache N D H)) (hc : cache.length = dh.length)
    (hne : dh ≠ []) :
    rnn_backward dh cache = some
      ((List.range dh.length).map (fun t => (bpttStepGrads dh cache t).1),
        (bpttStepGrads dh cache 0).2.1,
        ∑ t ∈ Finset.range dh.length, (bpttStepGrads dh cache t).2.2.1,
        ∑ t ∈ Finset.range dh.length, (bpttStepGrads dh cache t).2.2.2.1,
        fun r => ∑ t ∈ Finset.range dh.length, (bpttStepGrads dh cache t).2.2.2.2 r) := by
  obtain ⟨T', hT⟩ : ∃ T', dh.length = T' + 1 :=
    ⟨dh.length - 1, by
      have : dh.length ≠ 0 := by simpa using hne
      omega⟩
  have hcT : T' < cache.length := by omega
  have hfirst : rnn_step_backward (dh.getD T' 0) cache[T'] =
      bpttStepGrads dh cache T' := by
    unfold bpttStepGrads
    rw [bpttIncoming_last dh cache T' hT.symm, List.getD_eq_getElem cache _ hcT]
  unfold rnn_backward
  rw [hT]
  conv_lhs => rw [rnn_backward_go]
  rw [List.getElem?_eq_getElem hcT]
  simp only [Option.bind_eq_bind, Option.some_bind]
  rw [hfirst, rnn_backward_loop_spec dh cache hc T' (by omega)]
  simp only [Option.bind_eq_bind, Option.some_bind]
  refine congrArg some (Prod.ext ?_ (Prod.ext rfl (Prod.ext ?_ (Prod.ext ?_ ?_))))
  · dsimp only
    rw [List.range_succ]
    simp
  · dsimp only
    rw [Finset.sum_range_succ]
    abel
  · dsimp only
    rw [Finset.sum_range_succ]
    abel
  · dsimp only
    funext r
    rw [Finset.sum_range_succ]
    ring

theorem rnn_forward_some (tanh : ℚ → ℚ) {N D H : ℕ} (x : List (Mat N D))
    (h0 : Mat N H) (Wx : Mat D H) (Wh : Mat H H) (b : Fin H → ℚ)
    (hs : List (Mat N H)) (cs : List (StepCache N D H))
    (h : rnn_forward tanh x h0 Wx Wh b = some (hs, cs)) :
    hs.length = x.length ∧ cs.length = x.length ∧ x ≠ [] := by
  unfold rnn_forward at h
  split at h
  · exact absurd h (by simp)
  · rename_i heq
    have hpair := Option.some.inj h
    have h1 : hs = (rnn_forward_loop tanh Wx Wh b x h0).1 :=
      (congrArg Prod.fst hpair).symm
    have h2 : cs = (rnn_forward_loop tanh Wx Wh b x h0).2 :=
      (congrArg Prod.snd hpair).symm
    subst h1
    subst h2
    refine ⟨(rnn_forward_loop_length tanh Wx Wh b x h0).1,
      (rnn_forward_loop_length tanh Wx Wh b x h0).2, ?_⟩
    intro hx
    subst hx
    simp [rnn_forward_loop] at heq

/-- C1: on a cache produced by the matching `rnn_forward` call and an
upstream gradient `dh` with the same timestep count T ≥ 1, `rnn_backward`
computes exactly the BPTT recurrence: each timestep's backward call is fed
`dh[:,t,:]` plus the `dprev_h` of the step `t+1` backward (`dh[:,T-1,:]`
alone at the last timestep — this is `bpttIncoming`); `dx` is the list of
per-step input gradients in original time order; `dh0` is the `dprev_h`
emitted by the timestep-0 backward; and `dWx`, `dWh`, `db` are the sums of
the per-step weight/bias gradients over all T timesteps. -/
theorem rnn_backward_bptt_spec (tanh : ℚ → ℚ) {N D H : ℕ}
    (x : List (Mat N D)) (h0 : Mat N H) (Wx : Mat D H) (Wh : Mat H H)
    (b : Fin H → ℚ) (dh : List (Mat N H)) (hs : List (Mat N H))
    (cache : List (StepCache N D H))
    (hfwd : rnn_forward tanh x h0 Wx Wh b = some (hs, cache))
    (hlen : dh.length = x.length) :
    rnn_backward dh cache = some
      ((List.range dh.length).map (fun t => (bpttStepGrads dh cache t).1),
        (bpttStepGrads dh cache 0).2.1,
        ∑ t ∈ Finset.range dh.length, (bpttStepGrads dh cache t).2.2.1,
        ∑ t ∈ Finset.range dh.length, (bpttStepGrads dh cache t).2.2.2.1,
        fun r => ∑ t ∈ Finset.range dh.length, (bpttStepGrads dh cache t).2.2.2.2 r) := by
  obtain ⟨-, hclen, hxne⟩ := rnn_forward_some tanh x h0 Wx Wh b hs cache hfwd
  refine rnn_backward_char dh cache (by omega) ?_
  intro hdh
  subst hdh
  simp only [List.length_nil] at hlen
  exact hxne (List.length_eq_zero.mp hlen.symm)

/-- Witness for C1: a two-timestep run at N = D = H = 1 with
`tanh` instantiated to the identity. -/
theorem rnn_backward_bptt_spec_witness :
    (rnn_forward (fun q => q)
        [Matrix.of fun (_ : Fin 1) (_ : Fin 1) => (2 : ℚ), Matrix.of fun _ _ => (3 : ℚ)]
        (0 : Mat 1 1) (1 : Mat 1 1) (1 : Mat 1 1) (fun _ => (0 : ℚ)) =
      some ((rnn_forward_loop (fun q => q) (1 : Mat 1 1) (1 : Mat 1 1) (fun _ => (0 : ℚ))
          [Matrix.of fun (_ : Fin 1) (_ : Fin 1) => (2 : ℚ), Matrix.of fun _ _ => (3 : ℚ)]
          (0 : Mat 1 1)).1,
        (rnn_forward_loop (fun q => q) (1 : Mat 1 1) (1 : Mat 1 1) (fun _ => (0 : ℚ))
          [Matrix.of fun (_ : Fin 1) (_ : Fin 1) => (2 : ℚ), Matrix.of fun _ _ => (3 : ℚ)]
          (0 : Mat 1 1)).2)) ∧
    ([(1 : Mat 1 1), (1 : Mat 1 1)].length =
      [Matrix.of fun (_ : Fin 1) (_ : Fin 1) => (2 : ℚ), Matrix.of fun _ _ => (3 : ℚ)].length) ∧
    rnn_backward [(1 : Mat 1 1), (1 : Mat 1 1)]
        (rnn_forward_loop (fun q => q) (1 : Mat 1 1) (1 : Mat 1 1) (fun _ => (0 : ℚ))
          [Matrix.of fun (_ : Fin 1) (_ : Fin 1) => (2 : ℚ), Matrix.of fun _ _ => (3 : ℚ)]
          (0 : Mat 1 1)).2 = some
      ((List.range [(1 : Mat 1 1), (1 : Mat 1 1)].length).map
          (fun t => (bpttStepGrads [(1 : Mat 1 1), (1 : Mat 1 1)]
            (rnn_forward_loop (fun q => q) (1 : Mat 1 1) (1 : Mat 1 1) (fun _ => (0 : ℚ))
              [Matrix.of fun (_ : Fin 1) (_ : Fin 1) => (2 : ℚ), Matrix.of fun _ _ => (3 : ℚ)]
              (0 : Mat 1 1)).2 t).1),
        (bpttStepGrads [(1 : Mat 1 1), (1 : Mat 1 1)]
          (rnn_forward_loop (fun q => q) (1 : Mat 1 1) (1 : Mat 1 1) (fun _ => (0 : ℚ))
            [Matrix.of fun (_ : Fin 1) (_ : Fin 1) => (2 : ℚ), Matrix.of fun _ _ => (3 : ℚ)]
            (0 : Mat 1 1)).2 0).2.1,
        ∑ t ∈ Finset.range [(1 : Mat 1 1), (1 : Mat 1 1)].length,
          (bpttStepGrads [(1 : Mat 1 1), (1 : Mat 1 1)]
            (rnn_forward_loop (fun q => q) (1 : Mat 1 1) (1 : Mat 1 1) (fun _ => (0 : ℚ))
              [Matrix.of fun (_ : Fin 1) (_ : Fin 1) => (2 : ℚ), Matrix.of fun _ _ => (3 : ℚ)]
              (0 : Mat 1 1)).2 t).2.2.1,
        ∑ t ∈ Finset.range [(1 : Mat 1 1), (1 : Mat 1 1)].length,
          (bpttStepGrads [(1 : Mat 1 1), (1 : Mat 1 1)]
            (rnn_forward_loop (fun q => q) (1 : Mat 1 1) (1 : Mat 1 1) (fun _ => (0 : ℚ))
              [Matrix.of fun (_ : Fin 1) (_ : Fin 1) => (2 : ℚ), Matrix.of fun _ _ => (3 : ℚ)]
              (0 : Mat 1 1)).2 t).2.2.2.1,
        fun r => ∑ t ∈ Finset.range [(1 : Mat 1 1), (1 : Mat 1 1)].length,
          (bpttStepGrads [(1 : Mat 1 1), (1 : Mat 1 1)]
            (rnn_forward_loop (fun q => q) (1 : Mat 1 1) (1 : Mat 1 1) (fun _ => (0 : ℚ))
              [Matrix.of fun (_ : Fin 1) (_ : Fin 1) => (2 : ℚ), Matrix.of fun _ _ => (3 : ℚ)]
              (0 : Mat 1 1)).2 t).2.2.2.2 r) :=
  ⟨rfl, rfl,
    rnn_backward_bptt_spec (fun q => q)
      [Matrix.of fun _ _ => (2 : ℚ), Matrix.of fun _ _ => (3 : ℚ)] 0 1 1 (fun _ => 0)
      [(1 : Mat 1 1), (1 : Mat 1 1)] _ _ rfl rfl⟩

theorem rnn_backward_loop_isSome {N D H : ℕ} (dh : List (Mat N H))
    (cache : List (StepCache N D H)) :
    ∀ k s, k ≤ cache.length →
      (rnn_backward_loop dh cache k s).isSome = true := by
  intro k
  induction k with
  | zero => intro s _; rfl
  | succ k ih =>
    intro s hk
    rw [rnn_backward_loop_succ dh cache k (by omega) s]
    exact ih _ (by omega)

theorem rnn_backward_none_of_short {N D H : ℕ} (dh : List (Mat N H))
    (cache : List (StepCache N D H)) (hne : dh ≠ [])
    (hlt : cache.length < dh.length) : rnn_backward dh cache = none := by
  obtain ⟨T', hT⟩ : ∃ T', dh.length = T' + 1 :=
    ⟨dh.length - 1, by
      have : dh.length ≠ 0 := by simpa using hne
      omega⟩
  unfold rnn_backward
  rw [hT]
  conv_lhs => rw [rnn_backward_go]
  rw [List.getElem?_eq_none (by omega)]
  rfl

theorem rnn_backward_isSome_of_le {N D H : ℕ} (dh : List (Mat N H))
    (cache : List (StepCache N D H)) (hne : dh ≠ [])
    (hle : dh.length ≤ cache.length) :
    (rnn_backward dh cache).isSome = true := by
  obtain ⟨T', hT⟩ : ∃ T', dh.length = T' + 1 :=
    ⟨dh.length - 1, by
      have : dh.length ≠ 0 := by simpa using hne
      omega⟩
  unfold rnn_backward
  rw [hT]
  conv_lhs => rw [rnn_backward_go]
  rw [List.getElem?_eq_getElem (show T' < cache.length by omega)]
  simp only [Option.bind_eq_bind, Option.some_bind]
  obtain ⟨s, hs⟩ := Option.isSome_iff_exists.mp
    (rnn_backward_loop_isSome dh cache T' _ (by omega))
  rw [hs]
  rfl

/-- C8 counterexample: `rnn_backward` on a one-timestep `dh` with a
two-entry cache (longer than T) returns normally instead of failing — the
loop only ever reads `cache[T-1], …, cache[0]`, so an over-long cache is
accepted. -/
theorem rnn_backward_longer_cache_counterexample :
    ([(⟨0, 0, 0, 0, 0⟩ : StepCache 1 1 1), ⟨0, 0, 0, 0, 0⟩].length ≠
      [(0 : Mat 1 1)].length) ∧
    (rnn_backward [(0 : Mat 1 1)]
      [(⟨0, 0, 0, 0, 0⟩ : StepCache 1 1 1), ⟨0, 0, 0, 0, 0⟩]).isSome = true := by
  exact ⟨by simp, rfl⟩

/-- C8 (amended): `rnn_backward` fails (IndexError reading `cache[T-1]`)
exactly when the cache is shorter than the timestep count T of `dh`; a
cache of length ≥ T — in particular a longer one — is accepted and the call
returns normally, using only entries `0 … T-1`. -/
theorem rnn_backward_cache_length_check {N D H : ℕ} (dh : List (Mat N H))
    (cache : List (StepCache N D H)) (hne : dh ≠ []) :
    (cache.length < dh.length → rnn_backward dh cache = none) ∧
    (dh.length ≤ cache.length → (rnn_backward dh cache).isSome = true) :=
  ⟨rnn_backward_none_of_short dh cache hne,
    rnn_backward_isSome_of_le dh cache hne⟩

/-- Witness for the amended C8 at N = D = H = 1, T = 1, cache length 0. -/
theorem rnn_backward_cache_length_check_witness :
    ([(0 : Mat 1 1)] ≠ ([] : List (Mat 1 1))) ∧
    ((([] : List (StepCache 1 1 1)).length < [(0 : Mat 1 1)].length →
      rnn_backward [(0 : Mat 1 1)] ([] : List (StepCache 1 1 1)) = none) ∧
    ([(0 : Mat 1 1)].length ≤ ([] : List (StepCache 1 1 1)).length →
      (rnn_backward [(0 : Mat 1 1)] ([] : List (StepCache 1 1 1))).isSome = true)) :=
  ⟨List.cons_ne_nil _ _,
    rnn_backward_cache_length_check [(0 : Mat 1 1)] [] (List.cons_ne_nil _ _)⟩

/-- C10: at T = 0 both sequence functions fail — `rnn_forward` because
`np.transpose` rejects the empty stack instead of returning an (N, 0, H)
array, `rnn_backward` because its loop body never runs (its accumulators
and `dh0` are never initialised and the final transpose of the empty `dx`
fails) — while for every T ≥ 1 both return normally (backward with the
matching-length cache). -/
theorem rnn_zero_timesteps (tanh : ℚ → ℚ) {N D H : ℕ} (h0 : Mat N H)
    (Wx : Mat D H) (Wh : Mat H H) (b : Fin H → ℚ) (x : List (Mat N D))
    (dh : List (Mat N H)) (cache cache' : List (StepCache N D H)) :
    rnn_forward tanh ([] : List (Mat N D)) h0 Wx Wh b = none ∧
    rnn_backward ([] : List (Mat N H)) cache' = none ∧
    (x ≠ [] → (rnn_forward tanh x h0 Wx Wh b).isSome = true) ∧
    (dh ≠ [] → cache.length = dh.length → (rnn_backward dh cache).isSome = true) := by
  refine ⟨rfl, rfl, ?_, ?_⟩
  · intro hx
    unfold rnn_forward
    split
    · rename_i heq
      exfalso
      apply hx
      have := (rnn_forward_loop_length tanh Wx Wh b x h0).1
      rw [heq] at this
      exact List.length_eq_zero.mp this.symm
    · rfl
  · intro hne hlen
    exact rnn_backward_isSome_of_le dh cache hne (by omega)

/-- Witness for C10 at N = D = H = 1, T = 1. -/
theorem rnn_zero_timesteps_witness :
    ((rnn_forward (fun q => q) ([] : List (Mat 1 1)) (0 : Mat 1 1) 1 1
        (fun _ => (0 : ℚ)) = none) ∧
      rnn_backward ([] : List (Mat 1 1)) [(⟨0, 0, 0, 0, 0⟩ : StepCache 1 1 1)] = none ∧
      ([(0 : Mat 1 1)] ≠ [] →
        (rnn_forward (fun q => q) [(0 : Mat 1 1)] (0 : Mat 1 1) 1 1
          (fun _ => (0 : ℚ))).isSome = true) ∧
      ([(0 : Mat 1 1)] ≠ [] →
        [(⟨0, 0, 0, 0, 0⟩ : StepCache 1 1 1)].length = [(0 : Mat 1 1)].length →
        (rnn_backward [(0 : Mat 1 1)]
          [(⟨0, 0, 0, 0, 0⟩ : StepCache 1 1 1)]).isSome = true)) ∧
    ([(0 : Mat 1 1)] ≠ ([] : List (Mat 1 1))) :=
  ⟨rnn_zero_timesteps (fun q => q) (0 : Mat 1 1) 1 1 (fun _ => (0 : ℚ))
      [(0 : Mat 1 1)] [(0 : Mat 1 1)] [⟨0, 0, 0, 0, 0⟩] [⟨0, 0, 0, 0, 0⟩],
    List.cons_ne_nil _ _⟩

/-- C3: `rnn_step_forward` returns `next_h = tanh(x·Wx + prev_h·Wh + b)`
(elementwise tanh of the affine combination, with `b` broadcast over the
batch axis), and its cache retains `x`, `prev_h`, `next_h`, `Wx` and `Wh`. -/
theorem rnn_step_forward_spec (tanh : ℚ → ℚ) {N D H : ℕ} (x : Mat N D)
    (prev_h : Mat N H) (Wx : Mat D H) (Wh : Mat H H) (b : Fin H → ℚ) :
    (∀ n k, (rnn_step_forward tanh x prev_h Wx Wh b).1 n k =
      tanh ((∑ d, x n d * Wx d k) + (∑ j, prev_h n j * Wh j k) + b k)) ∧
    (rnn_step_forward tanh x prev_h Wx Wh b).2.x = x ∧
    (rnn_step_forward tanh x prev_h Wx Wh b).2.prev_h = prev_h ∧
    (rnn_step_forward tanh x prev_h Wx Wh b).2.next_h =
      (rnn_step_forward tanh x prev_h Wx Wh b).1 ∧
    (rnn_step_forward tanh x prev_h Wx Wh b).2.Wx = Wx ∧
    (rnn_step_forward tanh x prev_h Wx Wh b).2.Wh = Wh := by
  refine ⟨fun n k => ?_, rfl, rfl, rfl, rfl, rfl⟩
  simp [rnn_step_forward, Matrix.mul_apply, Matrix.add_apply, Matrix.map_apply]

/-- C2: `rnn_step_backward` returns exactly, with
`dz = dnext_h * (1 - next_h^2)` taken elementwise from the cached `next_h`:
`dx = dz·Wxᵀ`, `dprev_h = dz·Whᵀ`, `dWx = xᵀ·dz`, `dWh = prev_hᵀ·dz`, and
`db` the column-sum of `dz` over the batch axis (each matrix product spelled
entrywise). -/
theorem rnn_step_backward_spec {N D H : ℕ} (dnext_h : Mat N H)
    (c : StepCache N D H) :
    (∀ n d, (rnn_step_backward dnext_h c).1 n d =
      ∑ k, (dnext_h n k * (1 - c.next_h n k ^ 2)) * c.Wx d k) ∧
    (∀ n i, (rnn_step_backward dnext_h c).2.1 n i =
      ∑ k, (dnext_h n k * (1 - c.next_h n k ^ 2)) * c.Wh i k) ∧
    (∀ d k, (rnn_step_backward dnext_h c).2.2.1 d k =
      ∑ n, c.x n d * (dnext_h n k * (1 - c.next_h n k ^ 2))) ∧
    (∀ i k, (rnn_step_backward dnext_h c).2.2.2.1 i k =
      ∑ n, c.prev_h n i * (dnext_h n k * (1 - c.next_h n k ^ 2))) ∧
    (∀ k, (rnn_step_backward dnext_h c).2.2.2.2 k =
      ∑ n, dnext_h n k * (1 - c.next_h n k ^ 2)) := by
  refine ⟨fun n d => ?_, fun n i => ?_, fun d k => ?_, fun i k => ?_, fun k => ?_⟩ <;>
    simp [rnn_step_backward, Matrix.mul_apply, Matrix.transpose_apply]

/-- C9: on the cache produced by the matching `temporal_affine_forward` call,
`temporal_affine_backward` returns `dx[i,t] = dout[i,t]·wᵀ`,
`dw = Σ_{i,t} x[i,t]ᵀ·dout[i,t]`, and `db = Σ_{i,t} dout[i,t]`. -/
theorem temporal_affine_backward_spec {N T D M : ℕ} (x : Ten3 N T D)
    (w : Mat D M) (b : Fin M → ℚ) (dout : Ten3 N T M) :
    (∀ i t d, (temporal_affine_backward dout (temporal_affine_forward x w b).2).1 i t d =
      ∑ m, dout i t m * w d m) ∧
    (∀ d m, (temporal_affine_backward dout (temporal_affine_forward x w b).2).2.1 d m =
      ∑ i, ∑ t, x i t d * dout i t m) ∧
    (∀ m, (temporal_affine_backward dout (temporal_affine_forward x w b).2).2.2 m =
      ∑ i, ∑ t, dout i t m) := by
  refine ⟨fun i t d => ?_, fun d m => ?_, fun m => ?_⟩
  · simp [temporal_affine_backward, temporal_affine_forward, reshapeNT,
      unflattenNT, Matrix.mul_apply, Matrix.transpose_apply]
  · simp only [temporal_affine_backward, temporal_affine_forward,
      Matrix.transpose_apply, Matrix.mul_apply, reshapeNT, Matrix.of_apply,
      Fintype.sum_prod_type]
    exact Finset.sum_congr rfl fun i _ =>
      Finset.sum_congr rfl fun t _ => mul_comm _ _
  · simp [temporal_affine_backward, reshapeNT, Fintype.sum_prod_type]

/-- C5: when some sample `i` has `count[i] = Σ_t mask[i,t] = 0`,
`average_forward` surfaces the divide-by-zero condition of row `i`'s mean
(modelled as `none`) instead of returning a silently-zeroed result. -/
theorem average_forward_zero_count {N T H : ℕ} (hi : Ten3 N T H)
    (mask : Fin N → Fin T → ℚ) (h : ∃ i, (∑ t, mask i t) = 0) :
    average_forward hi mask = none := by
  obtain ⟨i, hzero⟩ := h
  simp only [average_forward]
  rw [if_neg]
  intro hall
  exact hall i hzero

/-- Witness for C5 at N = T = H = 1 with the all-zero mask. -/
theorem average_forward_zero_count_witness :
    (∃ i : Fin 1, (∑ t : Fin 1, (fun (_ : Fin 1) (_ : Fin 1) => (0 : ℚ)) i t) = 0) ∧
    average_forward (fun (_ : Fin 1) (_ : Fin 1) (_ : Fin 1) => (7 : ℚ))
      (fun _ _ => (0 : ℚ)) = none :=
  ⟨⟨0, by simp⟩,
    average_forward_zero_count (fun _ _ _ => (7 : ℚ)) (fun _ _ => (0 : ℚ))
      ⟨0, by simp⟩⟩
/-- C6: when every row count `Σ_t mask[i,t]` is nonzero, `average_forward`
returns `avg[i] = (mask[i]·h[i]) / count[i]` (and the cache holding `mask`
and `count`); for an all-ones mask this is the unweighted mean over the T
timesteps. -/
theorem average_forward_spec {N T H : ℕ} (hi : Ten3 N T H)
    (mask : Fin N → Fin T → ℚ) (h : ∀ i, (∑ t, mask i t) ≠ 0) :
    average_forward hi mask =
      some (fun i k => (∑ t, mask i t * hi i t k) / (∑ t, mask i t),
        ⟨mask, fun i => ∑ t, mask i t⟩) ∧
    ((∀ i t, mask i t = 1) →
      ∀ i k, (∑ t, mask i t * hi i t k) / (∑ t, mask i t) =
        (∑ t, hi i t k) / (T : ℚ)) := by
  constructor
  · simp only [average_forward]
    rw [if_pos h]
  · intro hones i k
    simp [hones, Finset.sum_const, Finset.card_univ]

/-- Witness for C6 at N = T = H = 1 with the all-ones mask. -/
theorem average_forward_spec_witness :
    (∀ i : Fin 1, (∑ t : Fin 1, (fun (_ : Fin 1) (_ : Fin 1) => (1 : ℚ)) i t) ≠ 0) ∧
    (average_forward (fun (_ : Fin 1) (_ : Fin 1) (_ : Fin 1) => (5 : ℚ))
        (fun _ _ => (1 : ℚ)) =
      some (fun i k => (∑ t, (fun (_ : Fin 1) (_ : Fin 1) => (1 : ℚ)) i t *
            (fun (_ : Fin 1) (_ : Fin 1) (_ : Fin 1) => (5 : ℚ)) i t k) /
          (∑ t, (fun (_ : Fin 1) (_ : Fin 1) => (1 : ℚ)) i t),
        ⟨fun _ _ => (1 : ℚ), fun i => ∑ t, (fun (_ : Fin 1) (_ : Fin 1) => (1 : ℚ)) i t⟩) ∧
    ((∀ i t, (fun (_ : Fin 1) (_ : Fin 1) => (1 : ℚ)) i t = 1) →
      ∀ i k, (∑ t, (fun (_ : Fin 1) (_ : Fin 1) => (1 : ℚ)) i t *
            (fun (_ : Fin 1) (_ : Fin 1) (_ : Fin 1) => (5 : ℚ)) i t k) /
          (∑ t, (fun (_ : Fin 1) (_ : Fin 1) => (1 : ℚ)) i t) =
        (∑ t, (fun (_ : Fin 1) (_ : Fin 1) (_ : Fin 1) => (5 : ℚ)) i t k) / ((1 : ℕ) : ℚ))) :=
  ⟨fun _ => by simp,
    average_forward_spec (fun _ _ _ => (5 : ℚ)) (fun _ _ => (1 : ℚ)) (fun _ => by simp)⟩

/-- C7: on a cache produced by a matching `average_forward` call (which
forces every `count[i]` nonzero), `average_backward` returns the (N, T, H)
gradient `dh[i,t] = davg[i] * mask[i,t] / count[i]`, and every padded
position (`mask[i,t] = 0`) receives exactly zero gradient. -/
theorem average_backward_spec {N T H : ℕ} (hi : Ten3 N T H)
    (mask : Fin N → Fin T → ℚ) (dho : Fin N → Fin H → ℚ)
    (avg : Fin N → Fin H → ℚ) (c : AvgCache N T)
    (h : average_forward hi mask = some (avg, c)) :
    average_backward dho c =
      some (fun i t k => dho i k * mask i t / (∑ s, mask i s)) ∧
    (∀ i t k, mask i t = 0 → dho i k * mask i t / (∑ s, mask i s) = 0) := by
  simp only [average_forward] at h
  by_cases hc : ∀ i, (∑ t, mask i t) ≠ 0
  · rw [if_pos hc] at h
    have hcache : c = ⟨mask, fun i => ∑ t, mask i t⟩ :=
      (congrArg Prod.snd (Option.some.inj h)).symm
    subst hcache
    constructor
    · simp only [average_backward]
      rw [if_pos fun i _ => hc i]
    · intro i t k ht
      rw [ht, mul_zero, zero_div]
  · rw [if_neg hc] at h
    exact absurd h (by simp)

/-- Witness for C7 at N = T = H = 1. -/
theorem average_backward_spec_witness :
    (average_forward (fun (_ : Fin 1) (_ : Fin 1) (_ : Fin 1) => (5 : ℚ))
        (fun _ _ => (1 : ℚ)) =
      some (fun _ _ => (5 : ℚ), ⟨fun _ _ => (1 : ℚ), fun _ => (1 : ℚ)⟩)) ∧
    (average_backward (fun (_ : Fin 1) (_ : Fin 1) => (3 : ℚ))
        (⟨fun _ _ => (1 : ℚ), fun _ => (1 : ℚ)⟩ : AvgCache 1 1) =
      some (fun i t k => (fun (_ : Fin 1) (_ : Fin 1) => (3 : ℚ)) i k *
          (fun (_ : Fin 1) (_ : Fin 1) => (1 : ℚ)) i t /
          (∑ s, (fun (_ : Fin 1) (_ : Fin 1) => (1 : ℚ)) i s)) ∧
    (∀ i t k, (fun (_ : Fin 1) (_ : Fin 1) => (1 : ℚ)) i t = 0 →
      (fun (_ : Fin 1) (_ : Fin 1) => (3 : ℚ)) i k *
          (fun (_ : Fin 1) (_ : Fin 1) => (1 : ℚ)) i t /
          (∑ s, (fun (_ : Fin 1) (_ : Fin 1) => (1 : ℚ)) i s) = 0)) :=
  ⟨by
      simp only [average_forward]
      rw [if_pos]
      · norm_num
      · intro i
        simp,
    average_backward_spec (fun _ _ _ => (5 : ℚ)) (fun _ _ => (1 : ℚ))
      (fun _ _ => (3 : ℚ)) (fun _ _ => (5 : ℚ))
      ⟨fun _ _ => (1 : ℚ), fun _ => (1 : ℚ)⟩
      (by
        simp only [average_forward]
        rw [if_pos]
        · norm_num
        · intro i
          simp)⟩
